import Mathlib

/-!
Shallow embedding of the react-spring animation core (`FrameLoop`): the frame
scheduler (`update`, `start`, `stop`) and the per-value integrator (`advance`).
Numbers are embedded as rationals.  The transcendental primitives used by the
analytical/simple spring solvers and the decay model (`Math.exp`, `Math.sin`,
`Math.cos`, `Math.sinh`, `Math.cosh`, `Math.sqrt`) are abstracted as an explicit
record of functions, so every theorem below holds for every interpretation of
them.  JavaScript truthiness (`x || y`, `!== false`, `!= null`, `=== true`) is
modelled exactly where the source relies on it.
-/

namespace FrameLoopModel

/-- A raw slot value: entries of `fromValues`/`toValues` are numbers or strings. -/
inductive Raw where
  | num (q : ℚ)
  | str (s : String)
deriving DecidableEq

/-- Abstract stand-ins for the JS `Math` transcendental functions used by the
integrator.  Theorems are proved for every interpretation of these fields. -/
structure MathPrims where
  exp : ℚ → ℚ
  sin : ℚ → ℚ
  cos : ℚ → ℚ
  sinh : ℚ → ℚ
  cosh : ℚ → ℚ
  sqrt : ℚ → ℚ

/-- One animated scalar: mirrors the `AnimatedValue` fields touched by
`FrameLoop.advance`.  The rk4 sub-step cache (`tempPosition`/`tempVelocity`)
starts undefined in JS; since undefined and `0` behave identically under the
`||` defaulting used by the rk4 solver, both are modelled as `0`. -/
structure AnimatedValue where
  value : Raw
  done : Bool
  elapsedTime : ℚ
  lastPosition : ℚ
  lastVelocity : Option ℚ
  tempPosition : ℚ
  tempVelocity : ℚ
deriving DecidableEq

/-- One entry of `config.toValues`: either a plain value, or another `Animated`
instance (a trail target), of which `advance` reads the live value and done
flag. -/
inductive ToSlot where
  | raw (r : Raw)
  | target (value : ℚ) (done : Bool)
deriving DecidableEq

/-- The `config.decay` field: absent, boolean, or a numeric rate. -/
inductive DecayCfg where
  | undef
  | bool (b : Bool)
  | num (q : ℚ)
deriving DecidableEq

/-- The `config.clamp` field: absent, boolean, or a numeric bounce factor. -/
inductive ClampCfg where
  | undef
  | bool (b : Bool)
  | num (q : ℚ)
deriving DecidableEq

/-- The spring integration method selected by `config.config.method`; the
`switch` default branch maps every other value to `euler`. -/
inductive Method where
  | euler
  | verlet
  | rk4
  | simple
  | analytical
deriving DecidableEq

/-- One animation configuration (`ActiveAnimation`) as read by
`FrameLoop.advance`: parallel value/from/to sequences plus the motion-model
parameters.  `cfgStep` is the nested `config.config.step` hint and `w0` the
precomputed natural frequency supplied by the controller. -/
structure ActiveAnimation where
  key : String
  idle : Bool
  animatedValues : List AnimatedValue
  toValues : List ToSlot
  fromValues : List Raw
  immediate : Bool
  initialVelocity : ℚ ⊕ List ℚ
  precision : Option ℚ
  duration : Option ℚ
  progress : ℚ
  easing : ℚ → ℚ
  decay : DecayCfg
  tension : ℚ
  friction : ℚ
  mass : ℚ
  clamp : ClampCfg
  w0 : ℚ
  method : Method
  cfgStep : Option ℚ

/-- JS truthiness of `config.decay` (`else if (config.decay)`). -/
def decayTruthy : DecayCfg → Bool
  | .undef => false
  | .bool b => b
  | .num q => decide (q ≠ 0)

/-- `config.decay === true ? 0.998 : config.decay`. -/
def decayRate : DecayCfg → ℚ
  | .num q => q
  | _ => 998 / 1000

/-- `config.precision || Math.min(1, Math.abs(to - from) / 1000)`: a configured
precision of `0` is falsy and falls back to the relative default. -/
def effectivePrecision (p : Option ℚ) (toVal fromVal : ℚ) : ℚ :=
  match p with
  | some q => if q = 0 then min 1 (|toVal - fromVal| / 1000) else q
  | none => min 1 (|toVal - fromVal| / 1000)

/-- `config.config.step || 50`. -/
def configStepOf (cfg : ActiveAnimation) : ℚ :=
  match cfg.cfgStep with
  | some q => if q = 0 then 50 else q
  | none => 50

/-- `configStep > 20 ? (configStep / config.w0) * 0.001 : configStep`, shared by
the euler, verlet and rk4 solvers. -/
def springStepSize (cfg : ActiveAnimation) : ℚ :=
  let cs := configStepOf cfg
  if 20 < cs then cs / cfg.w0 * (1 / 1000) else cs

/-- `Math.ceil(dt / step)` interpreted as a sub-step count. -/
def subStepCount (dt step : ℚ) : ℕ := (⌈dt / step⌉).toNat

/-- One explicit-Euler sub-step on `(position, velocity)`. -/
def eulerSub (cfg : ActiveAnimation) (toVal step : ℚ) (s : ℚ × ℚ) : ℚ × ℚ :=
  let springForce := -cfg.tension * (1 / 1000000) * (s.1 - toVal)
  let dampingForce := -cfg.friction * (1 / 1000) * s.2
  let acceleration := (springForce + dampingForce) / cfg.mass
  let v := s.2 + acceleration * step
  (s.1 + v * step, v)

/-- The euler solver body: sub-step `ceil(dt / step)` times. -/
def eulerRun (cfg : ActiveAnimation) (dt toVal pos vel : ℚ) : ℚ × ℚ :=
  let step := springStepSize cfg
  (eulerSub cfg toVal step)^[subStepCount dt step] (pos, vel)

/-- One verlet-style sub-step on `(position, velocity)`. -/
def verletSub (cfg : ActiveAnimation) (toVal step : ℚ) (s : ℚ × ℚ) : ℚ × ℚ :=
  let v :=
    ((1 - cfg.friction * step / 2) / (1 + step / 2)) * s.2 +
      (step / (cfg.mass * (1 + cfg.friction * step / 2))) * (-cfg.tension * (s.1 - toVal)) -
      cfg.tension / cfg.mass / (1 + cfg.friction * step / 2)
  (s.1 + v * step, v)

/-- The verlet solver body. -/
def verletRun (cfg : ActiveAnimation) (dt toVal pos vel : ℚ) : ℚ × ℚ :=
  let step := springStepSize cfg
  (verletSub cfg toVal step)^[subStepCount dt step] (pos, vel)

/-- JS `a || b` on numbers (`0` is falsy). -/
def jsOr (a b : ℚ) : ℚ := if a = 0 then b else a

/-- One rk4 sub-step on `(position, velocity, tempPosition, tempVelocity)`. -/
def rk4Sub (cfg : ActiveAnimation) (toVal step : ℚ) (s : ℚ × ℚ × ℚ × ℚ) : ℚ × ℚ × ℚ × ℚ :=
  let position := s.1
  let velocity := s.2.1
  let tp0 := s.2.2.1
  let aVelocity := velocity
  let aAcceleration := (cfg.tension * (toVal - tp0) - cfg.friction * velocity) / cfg.mass
  let tp1 := position + aVelocity * step * (1 / 2) * (1 / 1000)
  let tv1 := velocity + aAcceleration * step * (1 / 2) * (1 / 1000)
  let bVelocity := tv1
  let bAcceleration := (cfg.tension * (toVal - tp1) - cfg.friction * tv1) / cfg.mass
  let tp2 := position + bVelocity * step * (1 / 2) * (1 / 1000)
  let tv2 := velocity + bAcceleration * step * (1 / 2) * (1 / 1000)
  let cVelocity := tv2
  let cAcceleration := (cfg.tension * (toVal - tp2) - cfg.friction * tv2) / cfg.mass
  let tp3 := position + cVelocity * step * (1 / 1000)
  let tv3 := velocity + cAcceleration * step * (1 / 1000)
  let dVelocity := tv3
  let dAcceleration := (cfg.tension * (toVal - tp3) - cfg.friction * tv3) / cfg.mass
  let dxdt := (1 / 6) * (aVelocity + 2 * (bVelocity + cVelocity) + dVelocity)
  let dvdt := (1 / 6) * (aAcceleration + 2 * (bAcceleration + cAcceleration) + dAcceleration)
  (position + dxdt * step * (1 / 1000), velocity + dvdt * step * (1 / 1000), tp3, tv3)

/-- The rk4 solver body, seeding the sub-step cache with
`animated.tempPosition || position || 0` and `animated.tempVelocity || velocity`. -/
def rk4Run (cfg : ActiveAnimation) (dt toVal pos vel tempP tempV : ℚ) : ℚ × ℚ × ℚ × ℚ :=
  let tp := jsOr tempP (jsOr pos 0)
  let tv := jsOr tempV vel
  let step := springStepSize cfg
  (rk4Sub cfg toVal step)^[subStepCount dt step] (pos, vel, tp, tv)

/-- The analytical (closed-form) solver, classified by the damping ratio. -/
def analyticalRun (O : MathPrims) (cfg : ActiveAnimation) (toVal fromVal v0 t : ℚ) : ℚ × ℚ :=
  let c := cfg.friction
  let m := cfg.mass
  let k := cfg.tension
  let x0 := toVal - fromVal
  let zeta := c / (2 * O.sqrt (k * m))
  let w0 := O.sqrt (k / m) / 1000
  let w1 := w0 * O.sqrt (1 - zeta * zeta)
  let w2 := w0 * O.sqrt (zeta * zeta - 1)
  if zeta < 1 then
    let envelope := O.exp (-zeta * w0 * t)
    (toVal - envelope * (((v0 + zeta * w0 * x0) / w1) * O.sin (w1 * t) + x0 * O.cos (w1 * t)),
      zeta * w0 * envelope * ((O.sin (w1 * t) * (-v0 + zeta * w0 * x0)) / w1 + x0 * O.cos (w1 * t)) -
        envelope * (O.cos (w1 * t) * (-v0 + zeta * w0 * x0) - w1 * x0 * O.sin (w1 * t)))
  else if zeta = 1 then
    let envelope := O.exp (-w0 * t)
    (toVal - envelope * (x0 + (-v0 + w0 * x0) * t),
      envelope * (-v0 * (t * w0 - 1) + t * x0 * (w0 * w0)))
  else
    let envelope := O.exp (-zeta * w0 * t)
    (toVal -
        (envelope * ((v0 + zeta * w0 * x0) * O.sinh (w2 * t) + w2 * x0 * O.cosh (w2 * t))) / w2,
      (envelope * zeta * w0 * (O.sinh (w2 * t) * (v0 + zeta * w0 * x0) + x0 * w2 * O.cosh (w2 * t))) / w2 -
        (envelope * (w2 * O.cosh (w2 * t) * (v0 + zeta * w0 * x0) + w2 * w2 * x0 * O.sinh (w2 * t))) / w2)

/-- The simple solver: closed-form position, finite-difference velocity. -/
def simpleRun (O : MathPrims) (cfg : ActiveAnimation) (dt toVal fromVal v0 t pos : ℚ) : ℚ × ℚ :=
  let c := cfg.friction
  let m := cfg.mass
  let k := cfg.tension
  let zeta := c / (2 * O.sqrt (k * m))
  let w0 := O.sqrt (k / m) / 1000
  let x0 := toVal - fromVal
  let prevPosition := pos
  let position :=
    if zeta < 1 then
      let envelope := O.exp (-zeta * w0 * t)
      let w1 := w0 * O.sqrt (1 - zeta * zeta)
      toVal - envelope * (((v0 + zeta * w0 * x0) / w1) * O.sin (w1 * t) + x0 * O.cos (w1 * t))
    else
      let envelope := O.exp (-w0 * t)
      toVal - envelope * (x0 + (v0 + w0 * x0) * t)
  (position, (position - prevPosition) / dt)

/-- The overshoot (bounce) detector guarding the clamp logic:
`config.clamp !== false && config.tension !== 0 ? ... : false`. -/
def springIsBouncing (cfg : ActiveAnimation) (fromVal toVal position velocity : ℚ) : Bool :=
  if cfg.clamp ≠ ClampCfg.bool false ∧ cfg.tension ≠ 0 then
    if fromVal < toVal then decide (toVal < position ∧ 0 < velocity)
    else decide (position < toVal ∧ velocity < 0)
  else false

/-- `typeof config.clamp === 'number' ? config.clamp : 0`. -/
def clampFactor : ClampCfg → ℚ
  | .num q => q
  | _ => 0

/-- The end of the spring branch: apply the bounce, then compute the `finished`
flag from the velocity and displacement thresholds.  Returns the (possibly
inverted) velocity together with `finished`. -/
def springSettle (cfg : ActiveAnimation) (fromVal toVal precision position velocity : ℚ) :
    ℚ × Bool :=
  let isBouncing := springIsBouncing cfg fromVal toVal position velocity
  let velocity1 := if isBouncing then -velocity * clampFactor cfg.clamp else velocity
  let isVelocity := decide (|velocity1| ≤ precision)
  let isDisplacement := if cfg.tension ≠ 0 then decide (|toVal - position| ≤ precision) else true
  (velocity1, (isBouncing && decide (velocity1 = 0)) || (isVelocity && isDisplacement))

/-- Dispatch on `config.config.method`; returns
`(position, velocity, tempPosition, tempVelocity)`. -/
def springMethodRun (O : MathPrims) (dt : ℚ) (cfg : ActiveAnimation) (a : AnimatedValue)
    (toVal fromVal v0 pos elapsed : ℚ) : ℚ × ℚ × ℚ × ℚ :=
  match cfg.method with
  | .analytical =>
      let r := analyticalRun O cfg toVal fromVal v0 elapsed
      (r.1, r.2, a.tempPosition, a.tempVelocity)
  | .rk4 =>
      let vel := a.lastVelocity.getD v0
      rk4Run cfg dt toVal pos vel a.tempPosition a.tempVelocity
  | .simple =>
      let r := simpleRun O cfg dt toVal fromVal v0 elapsed pos
      (r.1, r.2, a.tempPosition, a.tempVelocity)
  | .verlet =>
      let r := verletRun cfg dt toVal pos 0
      (r.1, r.2, a.tempPosition, a.tempVelocity)
  | .euler =>
      let vel := a.lastVelocity.getD v0
      let r := eulerRun cfg dt toVal pos vel
      (r.1, r.2, a.tempPosition, a.tempVelocity)

/-- The tail of the per-value loop (source lines 443-455): trail gating, the
round-value snap, and the write-back of position/velocity/elapsed time.
Returns the new value record and the `active` contribution. -/
def finishValue (a : AnimatedValue) (target : Option (ℚ × Bool))
    (toVal position velocity elapsed : ℚ) (finished : Bool) (tempP tempV : ℚ) :
    AnimatedValue × Bool :=
  let blocked :=
    match target with
    | some (_, d) => !d
    | none => false
  if finished && !blocked then
    let position1 := if a.value ≠ Raw.num toVal then toVal else position
    ({ a with
        value := Raw.num position1, done := true, elapsedTime := elapsed,
        lastPosition := position1, lastVelocity := some velocity,
        tempPosition := tempP, tempVelocity := tempV }, false)
  else
    ({ a with
        value := Raw.num position, elapsedTime := elapsed,
        lastPosition := position, lastVelocity := some velocity,
        tempPosition := tempP, tempVelocity := tempV }, true)

/-- Per-index initial velocity: `Array.isArray(config.initialVelocity) ?
config.initialVelocity[i] : config.initialVelocity`. -/
def v0Of (cfg : ActiveAnimation) (i : ℕ) : ℚ :=
  match cfg.initialVelocity with
  | .inl q => q
  | .inr l => l.getD i 0

/-- The body of `FrameLoop.advance` for the value at index `i`: skip done
values, resolve trail targets, take the immediate path for immediate configs or
string endpoints, otherwise run the duration / decay / spring model and finish.
Returns the new value record and its `active` contribution. -/
def advanceValue (O : MathPrims) (dt : ℚ) (cfg : ActiveAnimation) (i : ℕ)
    (a : AnimatedValue) : AnimatedValue × Bool :=
  if a.done then (a, false)
  else
    let slot := cfg.toValues.getD i (ToSlot.raw (Raw.num 0))
    let target : Option (ℚ × Bool) :=
      match slot with
      | ToSlot.target v d => some (v, d)
      | ToSlot.raw _ => none
    let toRaw : Raw :=
      match slot with
      | ToSlot.raw r => r
      | ToSlot.target v _ => Raw.num v
    let fromRaw : Raw := cfg.fromValues.getD i (Raw.num 0)
    match toRaw, fromRaw with
    | Raw.num toVal, Raw.num fromVal =>
      if cfg.immediate then ({ a with value := Raw.num toVal, done := true }, false)
      else
        let elapsed := a.elapsedTime + dt
        let v0 := v0Of cfg i
        let precision := effectivePrecision cfg.precision toVal fromVal
        match cfg.duration with
        | some dur =>
            let p0 := cfg.progress
            let p := p0 + (1 - p0) * min 1 (elapsed / dur)
            let position := fromVal + cfg.easing p * (toVal - fromVal)
            let velocity := (position - a.lastPosition) / dt
            finishValue a target toVal position velocity elapsed (decide (p = 1))
              a.tempPosition a.tempVelocity
        | none =>
            if decayTruthy cfg.decay then
              let rate := decayRate cfg.decay
              let e := O.exp (-(1 - rate) * elapsed)
              let position := fromVal + (v0 / (1 - rate)) * (1 - e)
              let velocity := v0 * e
              let finished := decide (|a.lastPosition - position| < 1 / 10)
              let toVal1 := if finished then position else toVal
              finishValue a target toVal1 position velocity elapsed finished
                a.tempPosition a.tempVelocity
            else
              let r := springMethodRun O dt cfg a toVal fromVal v0 a.lastPosition elapsed
              let settled := springSettle cfg fromVal toVal precision r.1 r.2.1
              finishValue a target toVal r.1 settled.1 elapsed settled.2 r.2.2.1 r.2.2.2
    | _, _ =>
      ({ a with value := toRaw, done := true }, false)

/-- The per-value loop of `FrameLoop.advance`, walking the value list with its
index. -/
def advanceVals (O : MathPrims) (dt : ℚ) (cfg : ActiveAnimation) :
    ℕ → List AnimatedValue → List (AnimatedValue × Bool)
  | _, [] => []
  | i, a :: rest => advanceValue O dt cfg i a :: advanceVals O dt cfg (i + 1) rest

/-- `FrameLoop.advance(dt, config, changes)`: advance every constituent value;
`active` is true when some value is still animating, `changed` when some value
was not already done on entry. -/
def advance (O : MathPrims) (dt : ℚ) (cfg : ActiveAnimation) :
    ActiveAnimation × Bool × Bool :=
  let rs := advanceVals O dt cfg 0 cfg.animatedValues
  ({ cfg with animatedValues := rs.map (fun r => r.1) },
    rs.any (fun r => r.2),
    cfg.animatedValues.any (fun a => !a.done))

/-- A registered animation group (the `Controller` as seen by the scheduler):
its id, its configs, and whether it carries a per-frame listener
(`ctrl.props.onFrame` truthiness). -/
structure Ctrl where
  id : ℕ
  configs : List ActiveAnimation
  hasOnFrame : Bool

/-- The scheduler state of `FrameLoop`: the insertion-ordered id-to-controller
map, the idle flag, and the last-tick timestamp. -/
structure FrameLoopState where
  controllers : List (ℕ × Ctrl)
  idle : Bool
  lastTime : Option ℚ

/-- One output record handed to `onFrame`:
`(controller id, all configs idle, changes or null)`. -/
abbrev FrameUpdate := ℕ × Bool × Option (List (String × List Raw))

/-- The inner config loop of `update`: skip idle configs, advance the rest,
collecting whether any config is still active and the `(key, value)` change
pairs pushed by `advance`. -/
def advanceConfigs (O : MathPrims) (dt : ℚ) :
    List ActiveAnimation → List ActiveAnimation × Bool × List (String × List Raw)
  | [] => ([], false, [])
  | cfg :: rest =>
      let r := advanceConfigs O dt rest
      if cfg.idle then (cfg :: r.1, r.2.1, r.2.2)
      else
        let s := advance O dt cfg
        (s.1 :: r.1, s.2.1 || r.2.1,
          (if s.2.2 then [(s.1.key, s.1.animatedValues.map (fun a => a.value))] else [])
            ++ r.2.2)

/-- Advance one controller: returns the updated controller, its idle flag for
this pass, and its change list (present only when it has an `onFrame`
listener). -/
def processCtrl (O : MathPrims) (dt : ℚ) (c : Ctrl) :
    Ctrl × Bool × Option (List (String × List Raw)) :=
  let r := advanceConfigs O dt c.configs
  ({ c with configs := r.1 }, !r.2.1, if c.hasOnFrame then some r.2.2 else none)

/-- The controller loop of `update`, emitting a `FrameUpdate` for every
controller that went idle this pass or carries a listener. -/
def processControllers (O : MathPrims) (dt : ℚ) :
    List (ℕ × Ctrl) → List (ℕ × Ctrl) × List FrameUpdate
  | [] => ([], [])
  | (k, c) :: rest =>
      let r := processCtrl O dt c
      let rr := processControllers O dt rest
      ((k, r.1) :: rr.1,
        (if r.2.1 || (r.2.2).isSome then [(k, r.2.1, r.2.2)] else []) ++ rr.2)

/-- `if (dt > 64) dt = 64`. -/
def dtClamp (d : ℚ) : ℚ := if 64 < d then 64 else d

/-- `FrameLoop.update(time?)`: the per-tick entry point.  `now` stands for
`performance.now()`.  Returns the new state, the boolean result, the number of
frames requested through the request-frame primitive during the call, and the
batch handed to `onFrame` (`none` when no notification happened). -/
def update (O : MathPrims) (s : FrameLoopState) (timeArg : Option ℚ) (now : ℚ) :
    FrameLoopState × Bool × ℕ × Option (List FrameUpdate) :=
  if s.idle then (s, false, 0, none)
  else
    let time := timeArg.getD now
    let last := s.lastTime.getD time
    let dt := time - last
    if 0 < dt then
      let r := processControllers O (dtClamp dt) s.controllers
      if r.1.isEmpty then
        ({ s with controllers := r.1, lastTime := some time, idle := true }, false, 0, some r.2)
      else
        ({ s with controllers := r.1, lastTime := some time }, true, 1, some r.2)
    else
      ({ s with lastTime := some last }, true, 1, none)

/-- JS `Map.set`: overwrite in place when the key exists, append otherwise. -/
def mapSet (m : List (ℕ × Ctrl)) (k : ℕ) (c : Ctrl) : List (ℕ × Ctrl) :=
  if m.any (fun p => p.1 = k) then m.map (fun p => if p.1 = k then (k, c) else p)
  else m ++ [(k, c)]

/-- `FrameLoop.start(ctrl)`: register the controller; when idle, flip idle,
clear the last-tick timestamp and request one frame.  Returns the new state and
the number of frames requested. -/
def start (s : FrameLoopState) (c : Ctrl) : FrameLoopState × ℕ :=
  let m := mapSet s.controllers c.id c
  if s.idle then ({ controllers := m, idle := false, lastTime := none }, 1)
  else ({ s with controllers := m }, 0)

/-- `FrameLoop.stop(ctrl)`: delete the controller by id (JS `Map.delete`). -/
def stop (s : FrameLoopState) (c : Ctrl) : FrameLoopState :=
  { s with controllers := s.controllers.filter (fun p => p.1 ≠ c.id) }

/-- Iterate `advance` with a fixed delta, keeping the updated config. -/
def advanceIter (O : MathPrims) (dt : ℚ) (cfg : ActiveAnimation) (n : ℕ) : ActiveAnimation :=
  (fun c => (advance O dt c).1)^[n] cfg

/-- Fold a single value through `advance` steps with the given list of deltas. -/
def advanceDeltas (O : MathPrims) (cfg : ActiveAnimation) (ds : List ℚ) (a : AnimatedValue) :
    AnimatedValue :=
  ds.foldl (fun b d => (advanceValue O d cfg 0 b).1) a

/-- A concrete interpretation of the abstract `Math` primitives, used only to
instantiate witnesses; no theorem depends on its values. -/
def mathZero : MathPrims :=
  { exp := fun _ => 0, sin := fun _ => 0, cos := fun _ => 0,
    sinh := fun _ => 0, cosh := fun _ => 0, sqrt := fun _ => 0 }

/-! ### Concrete instances used by specific claims -/

/-- Base configuration used to instantiate witnesses. -/
def cfgBase : ActiveAnimation :=
  { key := "x", idle := false, animatedValues := [], toValues := [ToSlot.raw (Raw.num 1)],
    fromValues := [Raw.num 0], immediate := false, initialVelocity := Sum.inl 0,
    precision := some (1 / 10), duration := none, progress := 0, easing := fun p => p,
    decay := DecayCfg.undef, tension := 170, friction := 26, mass := 1,
    clamp := ClampCfg.bool false, w0 := 1, method := Method.euler, cfgStep := some 20 }

/-- Witness for C9 at a concrete finished value. -/
def aW9 : AnimatedValue :=
  { value := Raw.num 5, done := true, elapsedTime := 3, lastPosition := 5,
    lastVelocity := some 0, tempPosition := 0, tempVelocity := 0 }

def cfgW9 : ActiveAnimation := { cfgBase with animatedValues := [aW9] }

def sW8 : FrameLoopState := { controllers := [], idle := true, lastTime := some 7 }

def ctrlW8 : Ctrl := { id := 3, configs := [], hasOnFrame := false }

/-- A non-idle scheduler whose registry does not contain id 3: exercises the
stop-is-a-no-op conjuncts of C8 away from the idle case. -/
def sW8b : FrameLoopState :=
  { controllers := [(2, ctrlW8)], idle := false, lastTime := some 7 }

def sW3 : FrameLoopState := { controllers := [], idle := false, lastTime := some 5 }

def sIdleW : FrameLoopState := { controllers := [], idle := true, lastTime := none }

def sW7 : FrameLoopState := { controllers := [], idle := false, lastTime := some 5 }

def ctrlW7 : Ctrl := { id := 2, configs := [], hasOnFrame := false }

def cfgW5 : ActiveAnimation :=
  { cfgBase with decay := DecayCfg.bool true, initialVelocity := Sum.inl 10 }

def aW5 : AnimatedValue :=
  { value := Raw.num 0, done := false, elapsedTime := 0, lastPosition := 0,
    lastVelocity := none, tempPosition := 0, tempVelocity := 0 }

/-- The concrete duration configuration of the claim: `duration = 100`,
`from = 0`, `to = 1`, linear easing, zero stored progress. -/
def cfgDur : ActiveAnimation := { cfgBase with duration := some 100 }

def aDur0 : AnimatedValue :=
  { value := Raw.num 0, done := false, elapsedTime := 0, lastPosition := 0,
    lastVelocity := none, tempPosition := 0, tempVelocity := 0 }

/-- C2 counterexample configuration: zero tension (velocity-only settle), the
stored value already equal to the target but the integrated position away from
it. -/
def cfgSnap : ActiveAnimation :=
  { cfgBase with tension := 0, friction := 1, precision := some 1 }

def aSnap : AnimatedValue :=
  { value := Raw.num 1, done := false, elapsedTime := 0, lastPosition := 1 / 2,
    lastVelocity := some 0, tempPosition := 0, tempVelocity := 0 }

/-- C2 witness configuration: the single `to` slot is an in-flight (not done)
animated target. -/
def cfgTrail : ActiveAnimation := { cfgBase with toValues := [ToSlot.target 1 false] }

def aW2 : AnimatedValue :=
  { value := Raw.num 0, done := false, elapsedTime := 0, lastPosition := 0,
    lastVelocity := some 0, tempPosition := 0, tempVelocity := 0 }

/-- The divergent-Euler counterexample value: starting at rest at 0. -/
def aDiv0 : AnimatedValue :=
  { value := Raw.num 0, done := false, elapsedTime := 0, lastPosition := 0,
    lastVelocity := some 0, tempPosition := 0, tempVelocity := 0 }

/-- The divergent-Euler counterexample configuration: tension 10^6, friction 1,
mass 1, fixed numeric target 100, clamp disabled, sub-step hint 20 and the
default euler method — all parameters positive as the claim requires. -/
def cfgDiv : ActiveAnimation :=
  { cfgBase with
    toValues := [ToSlot.raw (Raw.num 100)], tension := 1000000,
    friction := 1, animatedValues := [aDiv0] }

/-- The invariant driving the divergence proof: the value is not done, sits at
least 1 away from the target, and its stored velocity is dominated by the
displacement. -/
def divInv (a : AnimatedValue) : Prop :=
  a.done = false ∧ 1 ≤ |a.lastPosition - 100| ∧
    ∃ v, a.lastVelocity = some v ∧ |v| ≤ |a.lastPosition - 100|

/-! ### Helper lemmas -/

theorem advanceValue_done (O : MathPrims) (dt : ℚ) (cfg : ActiveAnimation) (i : ℕ)
    (a : AnimatedValue) (h : a.done = true) : advanceValue O dt cfg i a = (a, false) := by
  simp [advanceValue, h]

theorem advanceVals_getElem? (O : MathPrims) (dt : ℚ) (cfg : ActiveAnimation) :
    ∀ (l : List AnimatedValue) (j i : ℕ),
      (advanceVals O dt cfg j l)[i]? = l[i]?.map (fun a => advanceValue O dt cfg (j + i) a)
  | [], _, _ => by simp [advanceVals]
  | _ :: _, j, 0 => by simp [advanceVals]
  | _ :: rest, j, i + 1 => by
      have := advanceVals_getElem? O dt cfg rest (j + 1) i
      simp [advanceVals, this, Nat.add_assoc, Nat.add_comm 1 i]

/-! ### C1 -/

/-- C1: in the spring branch, the termination flag returned by `springSettle`
holds exactly when either the bounce branch was taken and the resulting
velocity is 0, or both the post-bounce velocity is within `precision` and
(`tension == 0` or the displacement `|to - position|` is within `precision`);
with zero tension the displacement check is skipped (velocity-only settle). -/
theorem c1_spring_finished_iff (cfg : ActiveAnimation)
    (fromVal toVal precision position velocity : ℚ) :
    (springSettle cfg fromVal toVal precision position velocity).2 = true ↔
      ((springIsBouncing cfg fromVal toVal position velocity = true ∧
          (springSettle cfg fromVal toVal precision position velocity).1 = 0) ∨
        (|(springSettle cfg fromVal toVal precision position velocity).1| ≤ precision ∧
          (cfg.tension = 0 ∨ |toVal - position| ≤ precision))) := by
  by_cases hb : springIsBouncing cfg fromVal toVal position velocity = true <;>
    by_cases ht : cfg.tension = 0 <;>
      simp [springSettle, hb, ht]

/-! ### C9 -/

/-- C9: `advance` never mutates a value whose done flag is already set: the
output record at that index is exactly the input record (position, velocity,
elapsed time and stored value unchanged). -/
theorem c9_done_value_untouched (O : MathPrims) (dt : ℚ) (cfg : ActiveAnimation) (i : ℕ)
    (a : AnimatedValue) (hmem : cfg.animatedValues[i]? = some a) (hdone : a.done = true) :
    (advance O dt cfg).1.animatedValues[i]? = some a := by
  simp [advance, advanceVals_getElem?, hmem, advanceValue_done O dt cfg _ a hdone]

theorem c9_witness : (advance mathZero 1 cfgW9).1.animatedValues[0]? = some aW9 :=
  c9_done_value_untouched mathZero 1 cfgW9 0 aW9 (by decide) (by decide)

/-! ### C10 -/

/-- C10: a configured precision of 0 (or an absent one) is falsy and falls back
to `min(1, |to - from| / 1000)`, so with distinct endpoints no configuration
can produce an exact-zero settle threshold. -/
theorem c10_precision_zero_falsy (p : Option ℚ) (toVal fromVal : ℚ) (h : toVal ≠ fromVal) :
    effectivePrecision (some 0) toVal fromVal = min 1 (|toVal - fromVal| / 1000) ∧
      effectivePrecision none toVal fromVal = min 1 (|toVal - fromVal| / 1000) ∧
      effectivePrecision p toVal fromVal ≠ 0 := by
  have hpos : 0 < min 1 (|toVal - fromVal| / 1000) := by
    have : 0 < |toVal - fromVal| := abs_pos.mpr (sub_ne_zero.mpr h)
    have : 0 < |toVal - fromVal| / 1000 := by positivity
    exact lt_min one_pos this
  refine ⟨by simp [effectivePrecision], by simp [effectivePrecision], ?_⟩
  rcases p with _ | q
  · simpa [effectivePrecision] using ne_of_gt hpos
  · by_cases hq : q = 0 <;> simp [effectivePrecision, hq] <;> exact ne_of_gt hpos

theorem c10_witness : effectivePrecision (some 0) 3 0 = min 1 (|(3 : ℚ) - 0| / 1000) ∧
    effectivePrecision none 3 0 = min 1 (|(3 : ℚ) - 0| / 1000) ∧
    effectivePrecision (some 0) 3 0 ≠ 0 :=
  c10_precision_zero_falsy (some 0) 3 0 (by norm_num)

/-! ### C8 -/

/-- C8: `update` on an idle scheduler is a pure no-op returning false (no
integration, no notification, no mutation, no frame request); `stop` on any
scheduler, idle or not, with a group whose id is not in the registry leaves the
state unchanged, and `stop` never flips the idle flag of any scheduler state
itself. -/
theorem c8_misuse_noops (O : MathPrims) (s s2 : FrameLoopState) (timeArg : Option ℚ)
    (now : ℚ) (c : Ctrl) (hidle : s.idle = true)
    (habs : s2.controllers.all (fun p => p.1 ≠ c.id) = true) :
    update O s timeArg now = (s, false, 0, none) ∧ stop s2 c = s2 ∧
      ∀ (s3 : FrameLoopState) (c3 : Ctrl), (stop s3 c3).idle = s3.idle := by
  refine ⟨by simp [update, hidle], ?_, fun _ _ => rfl⟩
  have hf : s2.controllers.filter (fun p => !decide (p.1 = c.id)) = s2.controllers := by
    rw [List.filter_eq_self]
    intro p hp
    simpa using (List.all_eq_true.mp habs) p hp
  simp [stop, hf]

theorem c8_witness : update mathZero sW8 none 9 = (sW8, false, 0, none) ∧
    stop sW8b ctrlW8 = sW8b ∧
      ∀ (s3 : FrameLoopState) (c3 : Ctrl), (stop s3 c3).idle = s3.idle :=
  c8_misuse_noops mathZero sW8 sW8b none 9 ctrlW8 rfl (by decide)

/-! ### C3 -/

/-- C3: the delta handed to the integrators is clamped to at most 64 time
units, and a tick whose raw delta is 1000 produces exactly the same
integration results, idle transition, return value, frame requests and
notification batch as a tick whose raw delta is 64 (only the stored timestamp
differs). -/
theorem c3_delta_clamped (O : MathPrims) (s : FrameLoopState) (t0 now : ℚ)
    (hidle : s.idle = false) (hlast : s.lastTime = some t0) :
    (∀ d : ℚ, dtClamp d ≤ 64) ∧
      (update O s (some (t0 + 1000)) now).1.controllers =
          (update O s (some (t0 + 64)) now).1.controllers ∧
        (update O s (some (t0 + 1000)) now).1.idle = (update O s (some (t0 + 64)) now).1.idle ∧
        (update O s (some (t0 + 1000)) now).2 = (update O s (some (t0 + 64)) now).2 := by
  constructor
  · intro d
    unfold dtClamp
    split
    · norm_num
    · linarith [not_lt.mp (by assumption : ¬64 < d)]
  · have e1 : t0 + 1000 - t0 = (1000 : ℚ) := by ring
    have e2 : t0 + 64 - t0 = (64 : ℚ) := by ring
    have hc1 : dtClamp (1000 : ℚ) = 64 := by norm_num [dtClamp]
    have hc2 : dtClamp (64 : ℚ) = 64 := by norm_num [dtClamp]
    simp only [update, hidle, Bool.false_eq_true, if_false, hlast, Option.getD_some, e1, e2,
      hc1, hc2]
    norm_num
    by_cases he : (processControllers O 64 s.controllers).1.isEmpty <;> simp [he]

theorem c3_witness :
    (∀ d : ℚ, dtClamp d ≤ 64) ∧
      (update mathZero sW3 (some (5 + 1000)) 0).1.controllers =
          (update mathZero sW3 (some (5 + 64)) 0).1.controllers ∧
        (update mathZero sW3 (some (5 + 1000)) 0).1.idle =
          (update mathZero sW3 (some (5 + 64)) 0).1.idle ∧
        (update mathZero sW3 (some (5 + 1000)) 0).2 =
          (update mathZero sW3 (some (5 + 64)) 0).2 :=
  c3_delta_clamped mathZero sW3 5 0 rfl rfl

/-! ### C7 -/

/-- C7: `start` on an idle scheduler flips idle to false, clears the last-tick
timestamp and requests exactly one frame, while `start` on a non-idle scheduler
requests none; and once the registry is empty, an `update` tick with a later
timestamp flips idle back to true, returns the stopped result (false), and
requests no further frame. -/
theorem c7_scheduler_lifecycle (O : MathPrims) (s s2 : FrameLoopState) (c c2 : Ctrl)
    (t0 t now2 : ℚ) (hidle : s.idle = true) (h2 : s2.idle = false)
    (hempty : s2.controllers = []) (hlast : s2.lastTime = some t0) (ht : t0 < t) :
    start s c =
      ({ controllers := mapSet s.controllers c.id c, idle := false, lastTime := none }, 1) ∧
      (start s2 c2).2 = 0 ∧
      update O s2 (some t) now2 =
        ({ s2 with lastTime := some t, idle := true }, false, 0, some []) := by
  refine ⟨by simp [start, hidle], by simp [start, h2], ?_⟩
  obtain ⟨ctrls, idl, lt2⟩ := s2
  simp only at h2 hempty hlast
  subst h2 hempty hlast
  simp [update, processControllers, sub_pos.mpr ht]

theorem c7_witness :
    start sIdleW ctrlW7 =
      ({ controllers := mapSet sIdleW.controllers ctrlW7.id ctrlW7, idle := false,
          lastTime := none }, 1) ∧
      (start sW7 ctrlW7).2 = 0 ∧
      update mathZero sW7 (some 6) 0 =
        ({ sW7 with lastTime := some 6, idle := true }, false, 0, some []) :=
  c7_scheduler_lifecycle mathZero sIdleW sW7 ctrlW7 ctrlW7 5 6 0 rfl rfl rfl rfl (by norm_num)

/-- Unfolding of `advanceValue` in the decay branch. -/
theorem advanceValue_decay_eq (O : MathPrims) (dt : ℚ) (cfg : ActiveAnimation) (i : ℕ)
    (a : AnimatedValue) (toVal fromVal : ℚ)
    (hdone : a.done = false) (himm : cfg.immediate = false)
    (hto : cfg.toValues[i]?.getD (ToSlot.raw (Raw.num 0)) = ToSlot.raw (Raw.num toVal))
    (hfrom : cfg.fromValues[i]?.getD (Raw.num 0) = Raw.num fromVal)
    (hdur : cfg.duration = none) (hdec : decayTruthy cfg.decay = true) :
    advanceValue O dt cfg i a =
      (let position := fromVal + v0Of cfg i / (1 - decayRate cfg.decay) *
          (1 - O.exp (-(1 - decayRate cfg.decay) * (a.elapsedTime + dt)))
       let finished := decide (|a.lastPosition - position| < 1 / 10)
       finishValue a none (if finished = true then position else toVal) position
         (v0Of cfg i * O.exp (-(1 - decayRate cfg.decay) * (a.elapsedTime + dt)))
         (a.elapsedTime + dt) finished a.tempPosition a.tempVelocity) := by
  simp only [advanceValue, hdone, Bool.false_eq_true, if_false,
    List.getD_eq_getElem?_getD, hto, hfrom, himm, hdur, hdec, if_true]

/-! ### C5 -/

/-- C5: in the decay branch (rate defaulting to 0.998 for `decay == true`) the
new position is `from + (v0/(1-decay)) * (1-e)` and the velocity `v0 * e` with
`e = exp(-(1-decay) * elapsed)`; the value finishes exactly when
`|lastPosition - position| < 0.1`, and on finishing the target used for the
final snap is the settled decay position itself, so the stored value equals
that settled position rather than the originally configured target. -/
theorem c5_decay_model (O : MathPrims) (dt : ℚ) (cfg : ActiveAnimation) (i : ℕ)
    (a : AnimatedValue) (toVal fromVal rate e position velocity : ℚ)
    (hdone : a.done = false) (himm : cfg.immediate = false)
    (hto : cfg.toValues[i]?.getD (ToSlot.raw (Raw.num 0)) = ToSlot.raw (Raw.num toVal))
    (hfrom : cfg.fromValues[i]?.getD (Raw.num 0) = Raw.num fromVal)
    (hdur : cfg.duration = none) (hdec : decayTruthy cfg.decay = true)
    (hrate : rate = decayRate cfg.decay)
    (he : e = O.exp (-(1 - rate) * (a.elapsedTime + dt)))
    (hpos : position = fromVal + (v0Of cfg i / (1 - rate)) * (1 - e))
    (hvel : velocity = v0Of cfg i * e) :
    decayRate (DecayCfg.bool true) = 998 / 1000 ∧
      (advanceValue O dt cfg i a).1.lastVelocity = some velocity ∧
      (advanceValue O dt cfg i a).1.elapsedTime = a.elapsedTime + dt ∧
      ((advanceValue O dt cfg i a).1.done = true ↔ |a.lastPosition - position| < 1 / 10) ∧
      (|a.lastPosition - position| < 1 / 10 →
        (advanceValue O dt cfg i a).1.value = Raw.num position ∧
          (advanceValue O dt cfg i a).1.lastPosition = position) := by
  subst hrate he hpos hvel
  have heq := advanceValue_decay_eq O dt cfg i a toVal fromVal hdone himm hto hfrom hdur hdec
  refine ⟨rfl, ?_⟩
  rw [heq]
  by_cases hfin :
      |a.lastPosition -
          (fromVal + v0Of cfg i / (1 - decayRate cfg.decay) *
            (1 - O.exp (-(1 - decayRate cfg.decay) * (a.elapsedTime + dt))))| < 1 / 10
  · simp only [finishValue, hfin, decide_True, if_true, Bool.true_and, Bool.not_false]
    simp
  · simp only [finishValue, hfin, decide_False, if_false, Bool.false_and]
    simp [hdone, hfin]

theorem c5_witness :
    (advanceValue mathZero 1 cfgW5 0 aW5).1.lastVelocity = some 0 ∧
      (advanceValue mathZero 1 cfgW5 0 aW5).1.elapsedTime = 1 ∧
      (advanceValue mathZero 1 cfgW5 0 aW5).1.done = false := by
  have h := c5_decay_model mathZero 1 cfgW5 0 aW5 1 0 (998 / 1000) 0 5000 0
    rfl rfl (by decide) (by decide) rfl (by decide)
    (by norm_num [cfgW5, cfgBase, decayRate])
    (by norm_num [mathZero])
    (by norm_num [v0Of, cfgW5, cfgBase, mathZero])
    (by norm_num [v0Of, cfgW5, cfgBase, mathZero])
  refine ⟨h.2.1, by rw [h.2.2.1]; norm_num [aW5], ?_⟩
  have hiff := h.2.2.2.1
  rcases hd : (advanceValue mathZero 1 cfgW5 0 aW5).1.done with _ | _
  · rfl
  · have := hiff.mp (by rw [hd])
    norm_num [aW5] at this

/-! ### C4 -/

/-- Unfolding of `advanceValue` in the duration branch. -/
theorem advanceValue_duration_eq (O : MathPrims) (dt : ℚ) (cfg : ActiveAnimation) (i : ℕ)
    (a : AnimatedValue) (toVal fromVal dur : ℚ)
    (hdone : a.done = false) (himm : cfg.immediate = false)
    (hto : cfg.toValues[i]?.getD (ToSlot.raw (Raw.num 0)) = ToSlot.raw (Raw.num toVal))
    (hfrom : cfg.fromValues[i]?.getD (Raw.num 0) = Raw.num fromVal)
    (hdur : cfg.duration = some dur) :
    advanceValue O dt cfg i a =
      (let p := cfg.progress + (1 - cfg.progress) * min 1 ((a.elapsedTime + dt) / dur)
       let position := fromVal + cfg.easing p * (toVal - fromVal)
       finishValue a none toVal position ((position - a.lastPosition) / dt)
         (a.elapsedTime + dt) (decide (p = 1)) a.tempPosition a.tempVelocity) := by
  simp only [advanceValue, hdone, Bool.false_eq_true, if_false,
    List.getD_eq_getElem?_getD, hto, hfrom, himm, hdur]

/-- A duration-model step whose progress does not reach 1 leaves the value
unfinished, with the eased position and difference-quotient velocity stored. -/
theorem duration_step_not_done (O : MathPrims) (dt : ℚ) (cfg : ActiveAnimation) (i : ℕ)
    (a : AnimatedValue) (toVal fromVal dur : ℚ)
    (hdone : a.done = false) (himm : cfg.immediate = false)
    (hto : cfg.toValues[i]?.getD (ToSlot.raw (Raw.num 0)) = ToSlot.raw (Raw.num toVal))
    (hfrom : cfg.fromValues[i]?.getD (Raw.num 0) = Raw.num fromVal)
    (hdur : cfg.duration = some dur)
    (hp : cfg.progress + (1 - cfg.progress) * min 1 ((a.elapsedTime + dt) / dur) ≠ 1) :
    (advanceValue O dt cfg i a).1.done = false ∧
      (advanceValue O dt cfg i a).1.elapsedTime = a.elapsedTime + dt ∧
      (advanceValue O dt cfg i a).1.lastPosition =
        fromVal + cfg.easing
          (cfg.progress + (1 - cfg.progress) * min 1 ((a.elapsedTime + dt) / dur)) *
          (toVal - fromVal) ∧
      (advanceValue O dt cfg i a).1.lastVelocity =
        some ((fromVal + cfg.easing
            (cfg.progress + (1 - cfg.progress) * min 1 ((a.elapsedTime + dt) / dur)) *
            (toVal - fromVal) - a.lastPosition) / dt) ∧
      (advanceValue O dt cfg i a).2 = true := by
  rw [advanceValue_duration_eq O dt cfg i a toVal fromVal dur hdone himm hto hfrom hdur]
  simp [finishValue, hp, hdone]

/-- A duration-model step whose progress reaches exactly 1 finishes the value,
snapping to the target unless the stored value already equals it. -/
theorem duration_step_done (O : MathPrims) (dt : ℚ) (cfg : ActiveAnimation) (i : ℕ)
    (a : AnimatedValue) (toVal fromVal dur : ℚ)
    (hdone : a.done = false) (himm : cfg.immediate = false)
    (hto : cfg.toValues[i]?.getD (ToSlot.raw (Raw.num 0)) = ToSlot.raw (Raw.num toVal))
    (hfrom : cfg.fromValues[i]?.getD (Raw.num 0) = Raw.num fromVal)
    (hdur : cfg.duration = some dur)
    (hp : cfg.progress + (1 - cfg.progress) * min 1 ((a.elapsedTime + dt) / dur) = 1) :
    (advanceValue O dt cfg i a).1.done = true ∧
      (advanceValue O dt cfg i a).1.value =
        Raw.num (if a.value ≠ Raw.num toVal then toVal
          else fromVal + cfg.easing 1 * (toVal - fromVal)) := by
  rw [advanceValue_duration_eq O dt cfg i a toVal fromVal dur hdone himm hto hfrom hdur]
  simp only [hp, decide_True, finishValue, Bool.true_and, Bool.not_false, if_true]
  constructor
  · trivial
  · by_cases hv : a.value = Raw.num toVal <;> simp [hv]

/-- A value already done passes through any sequence of `advance` steps
unchanged. -/
theorem advanceDeltas_done (O : MathPrims) (cfg : ActiveAnimation) :
    ∀ (ds : List ℚ) (a : AnimatedValue), a.done = true → advanceDeltas O cfg ds a = a
  | [], _, _ => rfl
  | d :: ds, a, h => by
      have hstep : advanceDeltas O cfg (d :: ds) a =
          advanceDeltas O cfg ds (advanceValue O d cfg 0 a).1 := rfl
      rw [hstep, advanceValue_done O d cfg 0 a h]
      exact advanceDeltas_done O cfg ds a h

/-- Splitting invariance for `cfgDur`: any positive deltas accumulating to at
least the duration finish the value at the target. -/
theorem cfgDur_splitting (O : MathPrims) :
    ∀ (ds : List ℚ) (a : AnimatedValue), a.done = false →
      (∀ d ∈ ds, 0 < d) → 0 ≤ a.elapsedTime → a.elapsedTime < 100 →
      100 ≤ a.elapsedTime + ds.sum →
      (advanceDeltas O cfgDur ds a).done = true ∧
        (advanceDeltas O cfgDur ds a).value = Raw.num 1
  | [], a, _, _, _, hlt, hsum => by
      simp only [List.sum_nil, add_zero] at hsum
      linarith
  | d :: ds, a, hdone, hpos, h0, hlt, hsum => by
      have hd : 0 < d := hpos d (List.mem_cons_self d ds)
      have hstep : advanceDeltas O cfgDur (d :: ds) a =
          advanceDeltas O cfgDur ds (advanceValue O d cfgDur 0 a).1 := rfl
      by_cases hge : 100 ≤ a.elapsedTime + d
      · have hx : (1 : ℚ) ≤ (a.elapsedTime + d) / 100 := by
          rw [le_div_iff (by norm_num : (0 : ℚ) < 100)]
          linarith
        have hp : cfgDur.progress + (1 - cfgDur.progress) *
            min 1 ((a.elapsedTime + d) / 100) = 1 := by
          rw [min_eq_left hx]
          norm_num [cfgDur, cfgBase]
        have h2 := duration_step_done O d cfgDur 0 a 1 0 100 hdone (by decide) (by decide)
          (by decide) (by decide) hp
        rw [hstep, advanceDeltas_done O cfgDur ds _ h2.1]
        refine ⟨h2.1, ?_⟩
        rw [h2.2]
        by_cases hv : a.value = Raw.num 1 <;> simp [hv, cfgDur, cfgBase]
      · push_neg at hge
        have hx : (a.elapsedTime + d) / 100 < 1 := by
          rw [div_lt_one (by norm_num : (0 : ℚ) < 100)]
          linarith
        have hp : cfgDur.progress + (1 - cfgDur.progress) *
            min 1 ((a.elapsedTime + d) / 100) ≠ 1 := by
          rw [min_eq_right (le_of_lt hx)]
          norm_num [cfgDur, cfgBase]
          linarith
        have h1 := duration_step_not_done O d cfgDur 0 a 1 0 100 hdone (by decide) (by decide)
          (by decide) (by decide) hp
        rw [hstep]
        have hsum2 : (100 : ℚ) ≤ (a.elapsedTime + d) + ds.sum := by
          simp only [List.sum_cons] at hsum
          linarith
        refine cfgDur_splitting O ds (advanceValue O d cfgDur 0 a).1 h1.1
          (fun x hx2 => hpos x (List.mem_cons_of_mem d hx2)) ?_ ?_ ?_
        · rw [h1.2.1]; linarith
        · rw [h1.2.1]; linarith
        · rw [h1.2.1]; exact hsum2

/-- C4: in the duration branch, progress advances from the stored progress by
`(1 - p) * min(1, elapsed / duration)`; the value finishes exactly when the new
progress equals 1, and while unfinished the stored position is
`from + easing(p) * (to - from)` and the stored velocity the position delta over
the step delta; for `duration = 100`, `from = 0`, `to = 1` with linear easing,
any splitting of at least 100 time units into positive deltas yields
`value == 1` and `done == true`. -/
theorem c4_duration_model (O : MathPrims) (dt : ℚ) (cfg : ActiveAnimation) (i : ℕ)
    (a : AnimatedValue) (toVal fromVal dur p : ℚ)
    (hdone : a.done = false) (himm : cfg.immediate = false)
    (hto : cfg.toValues[i]?.getD (ToSlot.raw (Raw.num 0)) = ToSlot.raw (Raw.num toVal))
    (hfrom : cfg.fromValues[i]?.getD (Raw.num 0) = Raw.num fromVal)
    (hdur : cfg.duration = some dur)
    (hp : p = cfg.progress + (1 - cfg.progress) * min 1 ((a.elapsedTime + dt) / dur)) :
    ((advanceValue O dt cfg i a).1.done = true ↔ p = 1) ∧
      (p ≠ 1 →
        (advanceValue O dt cfg i a).1.lastPosition =
            fromVal + cfg.easing p * (toVal - fromVal) ∧
          (advanceValue O dt cfg i a).1.lastVelocity =
            some ((fromVal + cfg.easing p * (toVal - fromVal) - a.lastPosition) / dt) ∧
          (advanceValue O dt cfg i a).1.elapsedTime = a.elapsedTime + dt) ∧
      (∀ ds : List ℚ, (∀ d ∈ ds, 0 < d) → 100 ≤ ds.sum →
        (advanceDeltas O cfgDur ds aDur0).done = true ∧
          (advanceDeltas O cfgDur ds aDur0).value = Raw.num 1) := by
  subst hp
  refine ⟨?_, ?_, ?_⟩
  · constructor
    · intro hd
      by_contra hne
      have h1 := duration_step_not_done O dt cfg i a toVal fromVal dur hdone himm hto hfrom
        hdur hne
      rw [h1.1] at hd
      exact Bool.false_ne_true hd
    · intro hpe
      exact (duration_step_done O dt cfg i a toVal fromVal dur hdone himm hto hfrom
        hdur hpe).1
  · intro hne
    have h1 := duration_step_not_done O dt cfg i a toVal fromVal dur hdone himm hto hfrom
      hdur hne
    exact ⟨h1.2.2.1, h1.2.2.2.1, h1.2.1⟩
  · intro ds hds hsum
    exact cfgDur_splitting O ds aDur0 rfl hds (by norm_num [aDur0]) (by norm_num [aDur0])
      (by simpa [aDur0] using hsum)

theorem c4_witness :
    ((advanceValue mathZero 60 cfgDur 0 aDur0).1.done = true ↔ (3 / 5 : ℚ) = 1) ∧
      (advanceDeltas mathZero cfgDur [60, 50] aDur0).done = true ∧
      (advanceDeltas mathZero cfgDur [60, 50] aDur0).value = Raw.num 1 := by
  have h := c4_duration_model mathZero 60 cfgDur 0 aDur0 1 0 100 (3 / 5) rfl (by decide)
    (by decide) (by decide) (by decide) (by norm_num [cfgDur, cfgBase, aDur0])
  exact ⟨h.1, h.2.2 [60, 50] (by norm_num) (by norm_num)⟩

/-- C2 counterexample: this advance call finishes the value
(`done = true`), yet the stored value is not the resolved `to` (1): the snap is
skipped because the previously stored value already equals `to`, so the stale
position 1/2 is stored instead. -/
theorem c2_counterexample :
    (advanceValue mathZero 1 cfgSnap 0 aSnap).1.done = true ∧
      (advanceValue mathZero 1 cfgSnap 0 aSnap).1.value ≠ Raw.num 1 := by
  have hstep : springStepSize cfgSnap = 20 := by rfl
  have h20 : subStepCount 1 (springStepSize cfgSnap) = 1 := by
    rw [hstep, subStepCount, show ⌈(1:ℚ)/20⌉ = 1 from by rw [Int.ceil_eq_iff]; norm_num]
    rfl
  have hrun : eulerRun cfgSnap 1 1 (1/2) 0 = (1/2, 0) := by
    simp only [eulerRun]
    rw [h20, Function.iterate_one]
    simp only [eulerSub, cfgSnap, cfgBase, hstep]
    norm_num
  simp only [cfgSnap, cfgBase] at hrun
  norm_num [advanceValue, cfgSnap, cfgBase, aSnap, springMethodRun, hrun, springSettle,
    springIsBouncing, effectivePrecision, finishValue, v0Of, clampFactor, decayTruthy]

/-- C2 amended: for a non-immediate numeric advance whose `to` slot is an
in-flight (not done) AnimatedValue, the value is never marked done this step
and the config reports active, whatever the motion model computes; and whenever
a value finishes with its stored value different from the resolved `to`, its
position is snapped exactly to `to` before being stored (the snap is skipped
only when the stored value already equals `to`, in which case the computed
position is stored unchanged). -/
theorem c2_trail_gate_and_snap (O : MathPrims) (dt : ℚ) (cfg : ActiveAnimation) (i : ℕ)
    (a : AnimatedValue) (tv fv : ℚ)
    (hdone : a.done = false) (himm : cfg.immediate = false)
    (hto : cfg.toValues[i]?.getD (ToSlot.raw (Raw.num 0)) = ToSlot.target tv false)
    (hfrom : cfg.fromValues[i]?.getD (Raw.num 0) = Raw.num fv) :
    ((advanceValue O dt cfg i a).1.done = false ∧ (advanceValue O dt cfg i a).2 = true) ∧
      ∀ (b : AnimatedValue) (tgt : Option (ℚ × Bool)) (toVal position velocity elapsed tP tV : ℚ),
        (∀ v, tgt ≠ some (v, false)) → b.value ≠ Raw.num toVal →
        (finishValue b tgt toVal position velocity elapsed true tP tV).1.value = Raw.num toVal ∧
          (finishValue b tgt toVal position velocity elapsed true tP tV).1.lastPosition = toVal ∧
          (finishValue b tgt toVal position velocity elapsed true tP tV).1.done = true ∧
          (finishValue b tgt toVal position velocity elapsed true tP tV).2 = false := by
  constructor
  · rcases hdur : cfg.duration with _ | dur
    · by_cases hdec : decayTruthy cfg.decay = true
      · simp only [advanceValue, hdone, Bool.false_eq_true, if_false,
          List.getD_eq_getElem?_getD, hto, hfrom, himm, hdur, hdec]
        simp [finishValue, hdone]
      · simp only [advanceValue, hdone, Bool.false_eq_true, if_false,
          List.getD_eq_getElem?_getD, hto, hfrom, himm, hdur]
        simp [finishValue, hdone, hdec]
    · simp only [advanceValue, hdone, Bool.false_eq_true, if_false,
        List.getD_eq_getElem?_getD, hto, hfrom, himm, hdur]
      simp [finishValue, hdone]
  · intro b tgt toVal position velocity elapsed tP tV hnb hv
    rcases tgt with _ | ⟨v, d⟩
    · simp [finishValue, hv]
    · rcases d with _ | _
      · exact absurd rfl (hnb v)
      · simp [finishValue, hv]

theorem c2_witness :
    ((advanceValue mathZero 1 cfgTrail 0 aW2).1.done = false ∧
        (advanceValue mathZero 1 cfgTrail 0 aW2).2 = true) ∧
      ∀ (b : AnimatedValue) (tgt : Option (ℚ × Bool)) (toVal position velocity elapsed tP tV : ℚ),
        (∀ v, tgt ≠ some (v, false)) → b.value ≠ Raw.num toVal →
        (finishValue b tgt toVal position velocity elapsed true tP tV).1.value = Raw.num toVal ∧
          (finishValue b tgt toVal position velocity elapsed true tP tV).1.lastPosition = toVal ∧
          (finishValue b tgt toVal position velocity elapsed true tP tV).1.done = true ∧
          (finishValue b tgt toVal position velocity elapsed true tP tV).2 = false :=
  c2_trail_gate_and_snap mathZero 1 cfgTrail 0 aW2 1 0 rfl rfl (by decide) (by decide)

/-! ### C6 -/

/-- Unfolding of `advanceValue` in the spring branch. -/
theorem advanceValue_spring_eq (O : MathPrims) (dt : ℚ) (cfg : ActiveAnimation) (i : ℕ)
    (a : AnimatedValue) (toVal fromVal : ℚ)
    (hdone : a.done = false) (himm : cfg.immediate = false)
    (hto : cfg.toValues[i]?.getD (ToSlot.raw (Raw.num 0)) = ToSlot.raw (Raw.num toVal))
    (hfrom : cfg.fromValues[i]?.getD (Raw.num 0) = Raw.num fromVal)
    (hdur : cfg.duration = none) (hdec : decayTruthy cfg.decay = false) :
    advanceValue O dt cfg i a =
      (let r := springMethodRun O dt cfg a toVal fromVal (v0Of cfg i) a.lastPosition
          (a.elapsedTime + dt)
       let settled := springSettle cfg fromVal toVal
          (effectivePrecision cfg.precision toVal fromVal) r.1 r.2.1
       finishValue a none toVal r.1 settled.1 (a.elapsedTime + dt) settled.2 r.2.2.1 r.2.2.2) := by
  simp only [advanceValue, hdone, Bool.false_eq_true, if_false,
    List.getD_eq_getElem?_getD, hto, hfrom, himm, hdur, hdec]

theorem div_arith (u v : ℚ) (hu : 1 ≤ |u|) (hv : |v| ≤ |u|) :
    1 ≤ |(-399) * u + (98 / 5) * v| ∧
      |(49 / 50) * v - 20 * u| ≤ |(-399) * u + (98 / 5) * v| := by
  have h1 := abs_sub_abs_le_abs_sub ((-399) * u) (-((98 / 5) * v))
  rw [abs_neg, sub_neg_eq_add] at h1
  have hm1 : |(-399) * u| = 399 * |u| := by
    rw [abs_mul]
    norm_num
  have hm2 : |(98 / 5) * v| = (98 / 5) * |v| := by
    rw [abs_mul]
    norm_num
  have h2 : |(49 / 50) * v - 20 * u| ≤ |(49 / 50) * v| + |20 * u| := by
    rw [sub_eq_add_neg]
    exact (abs_add _ _).trans (by rw [abs_neg])
  have hm3 : |(49 / 50) * v| = (49 / 50) * |v| := by
    rw [abs_mul]
    norm_num
  have hm4 : |20 * u| = 20 * |u| := by
    rw [abs_mul]
    norm_num
  rw [hm1, hm2] at h1
  rw [hm3, hm4] at h2
  constructor <;> linarith

theorem subStepDiv : subStepCount 1 (springStepSize cfgDiv) = 1 := by
  have hs : springStepSize cfgDiv = 20 := by rfl
  rw [hs, subStepCount, show ⌈(1 : ℚ) / 20⌉ = 1 from by rw [Int.ceil_eq_iff]; norm_num]
  rfl

/-- One euler sub-step of the counterexample configuration in closed form. -/
theorem divEulerRun (x v : ℚ) :
    eulerRun cfgDiv 1 100 x v =
      (x + ((49 / 50) * v - 20 * (x - 100)) * 20, (49 / 50) * v - 20 * (x - 100)) := by
  simp only [eulerRun]
  rw [subStepDiv, Function.iterate_one, show springStepSize cfgDiv = (20 : ℚ) from rfl]
  simp only [eulerSub, cfgDiv, cfgBase, Prod.mk.injEq]
  norm_num
  ring

/-- Each advance step of the counterexample preserves the divergence
invariant: the value never finishes. -/
theorem divStep (a : AnimatedValue) (h : divInv a) :
    divInv (advanceValue mathZero 1 cfgDiv 0 a).1 := by
  obtain ⟨hdone, hu, v, hv, hvu⟩ := h
  have harith := div_arith (a.lastPosition - 100) v hu hvu
  have heq := advanceValue_spring_eq mathZero 1 cfgDiv 0 a 100 0 hdone (by decide) (by decide)
    (by decide) rfl rfl
  have hrunm : springMethodRun mathZero 1 cfgDiv a 100 0 (v0Of cfgDiv 0) a.lastPosition
      (a.elapsedTime + 1) =
      (a.lastPosition + ((49 / 50) * v - 20 * (a.lastPosition - 100)) * 20,
        (49 / 50) * v - 20 * (a.lastPosition - 100), a.tempPosition, a.tempVelocity) := by
    have hm : cfgDiv.method = Method.euler := rfl
    simp only [springMethodRun, hm, hv, Option.getD_some, divEulerRun]
  have hxu : a.lastPosition + ((49 / 50) * v - 20 * (a.lastPosition - 100)) * 20 - 100 =
      (-399) * (a.lastPosition - 100) + (98 / 5) * v := by ring
  have hfar : ¬(|(100 : ℚ) -
      (a.lastPosition + ((49 / 50) * v - 20 * (a.lastPosition - 100)) * 20)| ≤
        effectivePrecision cfgDiv.precision 100 0) := by
    have hprec : effectivePrecision cfgDiv.precision 100 0 = 1 / 10 := by
      norm_num [effectivePrecision, cfgDiv, cfgBase]
    rw [hprec, abs_sub_comm]
    have : 1 ≤ |a.lastPosition + ((49 / 50) * v - 20 * (a.lastPosition - 100)) * 20 - 100| := by
      rw [hxu]
      exact harith.1
    intro hc
    linarith
  have hset : springSettle cfgDiv 0 100 (effectivePrecision cfgDiv.precision 100 0)
      (a.lastPosition + ((49 / 50) * v - 20 * (a.lastPosition - 100)) * 20)
      ((49 / 50) * v - 20 * (a.lastPosition - 100)) =
      ((49 / 50) * v - 20 * (a.lastPosition - 100), false) := by
    have hbig : springIsBouncing cfgDiv 0 100
        (a.lastPosition + ((49 / 50) * v - 20 * (a.lastPosition - 100)) * 20)
        ((49 / 50) * v - 20 * (a.lastPosition - 100)) = false := by
      simp [springIsBouncing, cfgDiv, cfgBase]
    have htens : cfgDiv.tension = (1000000 : ℚ) := rfl
    simp [springSettle, hbig, hfar, htens]
  rw [heq, hrunm]
  simp only [hset, finishValue, Bool.false_and, Bool.false_eq_true, if_false]
  refine ⟨hdone, ?_, (49 / 50) * v - 20 * (a.lastPosition - 100), rfl, ?_⟩
  · rw [hxu]
    exact harith.1
  · rw [hxu]
    exact harith.2

/-- `advanceValue` never reads the `animatedValues` field of its config. -/
theorem advanceValue_av_irrel (O : MathPrims) (dt : ℚ) (cfg : ActiveAnimation)
    (l : List AnimatedValue) (i : ℕ) (a : AnimatedValue) :
    advanceValue O dt { cfg with animatedValues := l } i a = advanceValue O dt cfg i a := rfl

/-- Every iterate of `advance` on the counterexample keeps its single value in
the divergence invariant. -/
theorem divIter (n : ℕ) :
    ∃ a, advanceIter mathZero 1 cfgDiv n = { cfgDiv with animatedValues := [a] } ∧ divInv a := by
  induction n with
  | zero =>
      refine ⟨aDiv0, by rfl, rfl, ?_, 0, rfl, ?_⟩
      · rw [show aDiv0.lastPosition - 100 = -(100 : ℚ) from by norm_num [aDiv0], abs_neg]
        norm_num
      · rw [show aDiv0.lastPosition - 100 = -(100 : ℚ) from by norm_num [aDiv0], abs_neg]
        norm_num [aDiv0]
  | succ n ih =>
      obtain ⟨a, heq, hinv⟩ := ih
      have hit : advanceIter mathZero 1 cfgDiv (n + 1) =
          (advance mathZero 1 (advanceIter mathZero 1 cfgDiv n)).1 := by
        simp [advanceIter, Function.iterate_succ_apply']
      refine ⟨(advanceValue mathZero 1 cfgDiv 0 a).1, ?_, divStep a hinv⟩
      rw [hit, heq]
      simp [advance, advanceVals, advanceValue_av_irrel]

/-- C6 counterexample: for the euler spring configuration `cfgDiv`
(tension, friction, mass all positive, fixed numeric target, fixed delta 1),
no number of `advance` calls ever marks its value done — the claimed universal
termination fails. -/
theorem c6_counterexample :
    ¬ ∃ n : ℕ, ((advanceIter mathZero 1 cfgDiv n).animatedValues.all fun a => a.done) = true := by
  rintro ⟨n, hall⟩
  obtain ⟨a, heq, hinv⟩ := divIter n
  rw [heq] at hall
  simp at hall
  rw [hinv.1] at hall
  exact Bool.false_ne_true hall

/-- C6 amended: for the duration model with positive duration, a fixed numeric
target and any fixed positive delta, repeated `advance` calls mark the value
done within `ceil(duration / delta) + 1` calls; the spring model carries no
such guarantee (see the counterexample). -/
theorem c6_duration_terminates (O : MathPrims) (d dur : ℚ) (cfg : ActiveAnimation)
    (a : AnimatedValue) (toVal fromVal : ℚ)
    (hdone : a.done = false) (himm : cfg.immediate = false)
    (hto : cfg.toValues[0]?.getD (ToSlot.raw (Raw.num 0)) = ToSlot.raw (Raw.num toVal))
    (hfrom : cfg.fromValues[0]?.getD (Raw.num 0) = Raw.num fromVal)
    (hdur : cfg.duration = some dur) (hdpos : 0 < dur) (hd : 0 < d)
    (helapsed : a.elapsedTime = 0) :
    ((fun b => (advanceValue O d cfg 0 b).1)^[(⌈dur / d⌉).toNat + 1] a).done = true := by
  set f := fun b => (advanceValue O d cfg 0 b).1 with hf
  have key : ∀ k : ℕ, (f^[k] a).done = true ∨
      ((f^[k] a).done = false ∧ (f^[k] a).elapsedTime = k * d) := by
    intro k
    induction k with
    | zero => exact Or.inr ⟨hdone, by simp [helapsed]⟩
    | succ k ihk =>
        rw [Function.iterate_succ_apply']
        rcases ihk with hdk | ⟨hdk, hek⟩
        · left
          show (advanceValue O d cfg 0 (f^[k] a)).1.done = true
          rw [advanceValue_done O d cfg 0 _ hdk]
          exact hdk
        · by_cases hp : cfg.progress + (1 - cfg.progress) *
              min 1 (((f^[k] a).elapsedTime + d) / dur) = 1
          · exact Or.inl (duration_step_done O d cfg 0 (f^[k] a) toVal fromVal dur hdk himm
              hto hfrom hdur hp).1
          · have hstep := duration_step_not_done O d cfg 0 (f^[k] a) toVal fromVal dur hdk himm
              hto hfrom hdur hp
            right
            refine ⟨hstep.1, ?_⟩
            rw [hstep.2.1, hek]
            push_cast
            ring
  rcases key (⌈dur / d⌉).toNat with hdM | ⟨hdM, heM⟩
  · rw [Function.iterate_succ_apply']
    show (advanceValue O d cfg 0 (f^[(⌈dur / d⌉).toNat] a)).1.done = true
    rw [advanceValue_done O d cfg 0 _ hdM]
    exact hdM
  · rw [Function.iterate_succ_apply']
    have hM : (dur / d) ≤ ((⌈dur / d⌉).toNat : ℚ) := by
      have h1 : (dur / d) ≤ (⌈dur / d⌉ : ℚ) := Int.le_ceil _
      have h2 : (0 : ℤ) ≤ ⌈dur / d⌉ := Int.ceil_nonneg (le_of_lt (div_pos hdpos hd))
      have h3 : ((⌈dur / d⌉).toNat : ℤ) = ⌈dur / d⌉ := Int.toNat_of_nonneg h2
      have h4 : ((⌈dur / d⌉).toNat : ℚ) = ((⌈dur / d⌉ : ℤ) : ℚ) := by exact_mod_cast h3
      rw [h4]
      exact h1
    have hMd : dur ≤ ((⌈dur / d⌉).toNat : ℚ) * d := by
      rw [div_le_iff hd] at hM
      linarith
    have hp : cfg.progress + (1 - cfg.progress) *
        min 1 (((f^[(⌈dur / d⌉).toNat] a).elapsedTime + d) / dur) = 1 := by
      rw [heM]
      have hge : (1 : ℚ) ≤ (((⌈dur / d⌉).toNat : ℚ) * d + d) / dur := by
        rw [le_div_iff hdpos]
        linarith
      rw [min_eq_left hge]
      ring
    exact (duration_step_done O d cfg 0 _ toVal fromVal dur hdM himm hto hfrom hdur hp).1

theorem c6_witness :
    ((fun b => (advanceValue mathZero 60 cfgDur 0 b).1)^[(⌈(100 : ℚ) / 60⌉).toNat + 1]
        aDur0).done = true :=
  c6_duration_terminates mathZero 60 100 cfgDur aDur0 1 0 rfl (by decide) (by decide)
    (by decide) (by decide) (by norm_num) (by norm_num) rfl

end FrameLoopModel
